import Mathlib

/-!
Verification of the sales-commission module: the markup-to-factor lookup
table (`sales.commission.factor`), the per-line markup/commission computed
fields on `sale.order.line`, the order-level aggregates on `sale.order`,
the vendor-field write guard, and the ORM validation constraints.

Numeric model: Python floats are embedded as exact rationals (`ℚ`), and
Odoo `Integer` fields as `ℤ`.  Python-3 `round` is round-half-to-even
(banker's rounding), embedded below as `roundHalfEven`.  Python truthiness
of a float (`if x:`) is embedded as `x ≠ 0`, of a recordset as `≠ []`, and
a raised `ValidationError` as `Except.error`.
-/

/-- Python 3 `round` to an integer: round half to even (banker's rounding). -/
def roundHalfEven (q : ℚ) : ℤ :=
  let n := Int.floor q
  let frac := q - n
  if frac < 1/2 then n
  else if 1/2 < frac then n + 1
  else if n % 2 = 0 then n else n + 1

/-- Rounding half away from zero, the rule the spec text names in section 4.1. -/
def roundHalfAwayFromZero (q : ℚ) : ℤ :=
  if 0 ≤ q then Int.floor (q + 1/2) else -Int.floor (-q + 1/2)

/-- A record of the `sales.commission.factor` model. -/
structure CommissionFactor where
  id : Nat
  markup_percentage : ℤ
  commission_factor : ℚ
  active : Bool
deriving DecidableEq

/-- The records returned by `search([("active", "=", True)])`. -/
def activeFactors (table : List CommissionFactor) : List CommissionFactor :=
  table.filter (fun e => e.active)

/-- The first record of the recordset after an ascending sort on
`markup_percentage` (ties keep their original order, as a stable sort does). -/
def minByMarkup (e : CommissionFactor) : List CommissionFactor → CommissionFactor
  | [] => e
  | f :: fs => minByMarkup (if f.markup_percentage < e.markup_percentage then f else e) fs

/-- The last record of the recordset after an ascending sort on
`markup_percentage`. -/
def maxByMarkup (e : CommissionFactor) : List CommissionFactor → CommissionFactor
  | [] => e
  | f :: fs => maxByMarkup (if e.markup_percentage ≤ f.markup_percentage then f else e) fs

/-- `CommissionFactor.get_commission_factor`: round the input, return the
exact match's factor if one exists, clamp to the minimum (resp. maximum)
configured factor below (resp. above) the table's range, `0.0` on an empty
table or an in-range gap. -/
def get_commission_factor (table : List CommissionFactor) (markup_percentage : ℚ) : ℚ :=
  let rounded := roundHalfEven markup_percentage
  match activeFactors table with
  | [] => 0
  | f :: fs =>
    match (f :: fs).find? (fun e => e.markup_percentage == rounded) with
    | some e => e.commission_factor
    | none =>
      let min_factor_record := minByMarkup f fs
      let max_factor_record := maxByMarkup f fs
      if rounded < min_factor_record.markup_percentage then
        min_factor_record.commission_factor
      else if max_factor_record.markup_percentage < rounded then
        max_factor_record.commission_factor
      else 0

/-- `SaleOrderLine._compute_markup_percentage` for one line: guard against a
zero price or an absent cost, else `round(((purchase_price / price_unit) - 1)
* -100)`. -/
def markup_percentage_of (price_unit purchase_price : ℚ) : ℚ :=
  if price_unit ≠ 0 ∧ purchase_price ≠ 0 then
    ((roundHalfEven ((purchase_price / price_unit - 1) * (-100)) : ℤ) : ℚ)
  else 0

/-- `SaleOrderLine._compute_markup_amount` for one line. -/
def markup_amount_of (price_unit purchase_price : ℚ) : ℚ :=
  if price_unit ≠ 0 ∧ purchase_price ≠ 0 then price_unit - purchase_price else 0

/-- `SaleOrderLine._compute_commission_factor` for one line: the table lookup,
skipped (forced to `0.0`) when the stored markup percentage is zero. -/
def commission_factor_of (table : List CommissionFactor) (markup_percentage : ℚ) : ℚ :=
  if markup_percentage ≠ 0 then get_commission_factor table markup_percentage else 0

/-- `SaleOrderLine._compute_commission_amount` for one line:
`price_subtotal * commission_factor` when both are non-zero, else `0.0`. -/
def commission_amount_of (price_subtotal commission_factor : ℚ) : ℚ :=
  if price_subtotal ≠ 0 ∧ commission_factor ≠ 0 then price_subtotal * commission_factor
  else 0

/-- The four derived line fields of section 4.2, assembled in dependency
order; the host-computed `price_subtotal` of an undiscounted line is
`unit_price * quantity`. -/
def compute_line (table : List CommissionFactor) (unit_price unit_cost quantity : ℚ) :
    ℚ × ℚ × ℚ × ℚ :=
  let mp := markup_percentage_of unit_price unit_cost
  let ma := markup_amount_of unit_price unit_cost
  let cf := commission_factor_of table mp
  let subtotal := unit_price * quantity
  (mp, ma, cf, commission_amount_of subtotal cf)

/-- Two-row table distinguishing the integer buckets 14 and 15. -/
def C2tbl : List CommissionFactor := [⟨1, 14, 1/100, true⟩, ⟨2, 15, 1/50, true⟩]

/-- The single active entry `{20: 0.010}` of the section-8 example. -/
def C3tbl : List CommissionFactor := [⟨1, 20, 1/100, true⟩]

/-- A `sale.order.line` as the order-level aggregates read it: the host
fields `price_unit`, `purchase_price` (`0.0` when absent),
`product_uom_qty`, `price_subtotal`, and the stored computed
`commission_factor`. -/
structure OrderLine where
  price_unit : ℚ
  purchase_price : ℚ
  product_uom_qty : ℚ
  price_subtotal : ℚ
  commission_factor : ℚ
deriving DecidableEq

/-- `SaleOrder._compute_total_cost_amount`: the loop adds
`purchase_price * product_uom_qty` for each line where both are truthy. -/
def total_cost_amount (lines : List OrderLine) : ℚ :=
  (lines.map (fun l =>
    if l.purchase_price ≠ 0 ∧ l.product_uom_qty ≠ 0 then
      l.purchase_price * l.product_uom_qty
    else 0)).sum

/-- `SaleOrder._compute_total_markup_amount` (unconditional). -/
def total_markup_amount (amount_untaxed total_cost : ℚ) : ℚ :=
  amount_untaxed - total_cost

/-- `SaleOrder._compute_total_markup_percentage`. -/
def total_markup_percentage (total_cost amount_untaxed : ℚ) : ℚ :=
  if amount_untaxed ≠ 0 ∧ total_cost ≠ 0 then
    ((roundHalfEven ((total_cost / amount_untaxed - 1) * (-100)) : ℤ) : ℚ)
  else 0

/-- The accumulator `total_weighted_factor` of
`_compute_total_commission_factor`: its loop adds
`price_subtotal * commission_factor` for each line where both are truthy. -/
def total_weighted_factor (lines : List OrderLine) : ℚ :=
  (lines.map (fun l =>
    if l.price_subtotal ≠ 0 ∧ l.commission_factor ≠ 0 then
      l.price_subtotal * l.commission_factor
    else 0)).sum

/-- The accumulator `total_subtotal` of the same loop. -/
def total_subtotal (lines : List OrderLine) : ℚ :=
  (lines.map (fun l =>
    if l.price_subtotal ≠ 0 ∧ l.commission_factor ≠ 0 then l.price_subtotal
    else 0)).sum

/-- `SaleOrder._compute_total_commission_factor`: guarded by a truthy
`amount_untaxed` and a non-empty line collection, then the weighted average
when the accumulated subtotal is strictly positive. -/
def total_commission_factor (lines : List OrderLine) (amount_untaxed : ℚ) : ℚ :=
  if amount_untaxed ≠ 0 ∧ lines ≠ [] then
    if 0 < total_subtotal lines then
      total_weighted_factor lines / total_subtotal lines
    else 0
  else 0

/-- `SaleOrder._compute_total_commission_amount`. -/
def total_commission_amount (amount_untaxed factor : ℚ) : ℚ :=
  if amount_untaxed ≠ 0 ∧ factor ≠ 0 then amount_untaxed * factor else 0

/-- The subtotal-weighted average exactly as claim C5 words it: restricted to
qualifying lines (both `line_subtotal` and `commission_factor` non-zero),
`0.0` when there are no qualifying lines or the weighted denominator is
zero.  Stated from the claim, to be compared with the code's
`total_commission_factor`. -/
def claimWeightedFactor (lines : List OrderLine) : ℚ :=
  let qual := lines.filter (fun l =>
    decide (l.price_subtotal ≠ 0 ∧ l.commission_factor ≠ 0))
  if qual = [] ∨ (qual.map (fun l => l.price_subtotal)).sum = 0 then 0
  else
    (qual.map (fun l => l.price_subtotal * l.commission_factor)).sum /
      (qual.map (fun l => l.price_subtotal)).sum

/-- Section-8 weighted-average example: subtotals 200 and 100 carrying
factors 0.010 and 0.004. -/
def C5lines : List OrderLine := [⟨200, 0, 1, 200, 1/100⟩, ⟨100, 0, 1, 100, 1/250⟩]

/-- A single qualifying line (subtotal 100, factor 0.010), to be paired with
`amount_untaxed = 0`. -/
def C5gap : List OrderLine := [⟨100, 0, 1, 100, 1/100⟩]

/-- Section-8 aggregator example: subtotal/cost 200/160, 150/120, 150/135,
each at quantity 1. -/
def C6lines : List OrderLine :=
  [⟨200, 160, 1, 200, 0⟩, ⟨150, 120, 1, 150, 0⟩, ⟨150, 135, 1, 150, 0⟩]

/-- The order lifecycle states of `sale.order.state`. -/
inductive OrderState where
  | draft
  | sent
  | sale
  | done
  | cancel
deriving DecidableEq

/-- `SaleOrderLine._compute_can_edit_product_vendor`: the vendor field is
editable only while the parent order is in draft or sent state. -/
def can_edit_product_vendor (state : OrderState) : Bool :=
  state == OrderState.draft || state == OrderState.sent

/-- The `commission_payment_status` selection values. -/
inductive CommissionPaymentStatus where
  | pending
  | paid
deriving DecidableEq

/-- The `sale.order.line` fields the overridden `write` can touch, plus the
parent order's current state. -/
structure SOLine where
  product_vendor_id : Option Nat
  commission_payment_status : CommissionPaymentStatus
  order_state : OrderState
deriving DecidableEq

/-- A `vals` dictionary for `SaleOrderLine.write`; `none` means the key is
absent. -/
structure SOLineVals where
  product_vendor_id : Option (Option Nat)
  commission_payment_status : Option CommissionPaymentStatus
deriving DecidableEq

/-- Application of a `vals` dictionary by the base `write`. -/
def apply_line_vals (vals : SOLineVals) (line : SOLine) : SOLine :=
  ⟨vals.product_vendor_id.getD line.product_vendor_id,
    vals.commission_payment_status.getD line.commission_payment_status,
    line.order_state⟩

/-- `SaleOrderLine.write`: raises a `ValidationError` when `vals` touches
`product_vendor_id` while the order's current state is not draft/sent;
otherwise the base write applies the values. -/
def write_line (line : SOLine) (vals : SOLineVals) : Except String SOLine :=
  if vals.product_vendor_id.isSome && !(can_edit_product_vendor line.order_state) then
    Except.error "Product vendor can only be modified in Draft or Quotation Sent states"
  else
    Except.ok (apply_line_vals vals line)

/-- A `vals` dictionary for create/write on `sales.commission.factor`. -/
structure FactorVals where
  markup_percentage : Option ℤ
  commission_factor : Option ℚ
  active : Option Bool
deriving DecidableEq

/-- Application of a `vals` dictionary to a `sales.commission.factor`
record. -/
def apply_factor_vals (vals : FactorVals) (rec : CommissionFactor) : CommissionFactor :=
  ⟨rec.id, vals.markup_percentage.getD rec.markup_percentage,
    vals.commission_factor.getD rec.commission_factor,
    vals.active.getD rec.active⟩

/-- `_check_markup_percentage` for one record. -/
def check_markup_percentage (rec : CommissionFactor) : Except String Unit :=
  if rec.markup_percentage < 0 then
    Except.error "Markup percentage cannot be negative"
  else if 1000 < rec.markup_percentage then
    Except.error "Markup percentage cannot exceed 1000"
  else Except.ok ()

/-- `_check_commission_factor` for one record. -/
def check_commission_factor (rec : CommissionFactor) : Except String Unit :=
  if rec.commission_factor < 0 then
    Except.error "Commission factor cannot be negative"
  else if 1 < rec.commission_factor then
    Except.error "Commission factor cannot exceed 1.0"
  else Except.ok ()

/-- `_check_unique_markup_percentage` for one record: searches the current
database state for another active record with the same markup percentage. -/
def check_unique_markup_percentage (db : List CommissionFactor)
    (rec : CommissionFactor) : Except String Unit :=
  if (db.filter (fun x =>
      x.markup_percentage == rec.markup_percentage && x.id != rec.id
        && x.active)).isEmpty then
    Except.ok ()
  else Except.error "Markup percentage already exists"

/-- A constraint method's `for record in self` loop over the written
recordset. -/
def check_each (f : CommissionFactor → Except String Unit) :
    List CommissionFactor → Except String Unit
  | [] => Except.ok ()
  | r :: rs => do
    f r
    check_each f rs

/-- `create` on `sales.commission.factor`: the record is inserted, then every
constraint runs, since all constrained fields are present in the create
values. -/
def create_factor (db : List CommissionFactor) (new : CommissionFactor) :
    Except String (List CommissionFactor) := do
  let db2 := db ++ [new]
  check_markup_percentage new
  check_commission_factor new
  check_unique_markup_percentage db2 new
  pure db2

/-- `write` on `sales.commission.factor`: the values are applied to the
addressed record, then each `@api.constrains` method runs only when one of
its declared fields is a key of `vals` (`markup_percentage` for the range
and uniqueness checks, `commission_factor` for the factor range check); a
write touching only `active` triggers no constraint. -/
def write_factor (db : List CommissionFactor) (rid : Nat) (vals : FactorVals) :
    Except String (List CommissionFactor) := do
  let db2 := db.map (fun e => if e.id == rid then apply_factor_vals vals e else e)
  let touched := db2.filter (fun e => e.id == rid)
  if vals.markup_percentage.isSome then
    check_each check_markup_percentage touched
  if vals.commission_factor.isSome then
    check_each check_commission_factor touched
  if vals.markup_percentage.isSome then
    check_each (check_unique_markup_percentage db2) touched
  pure db2

/-- The data-model invariant: pairwise-distinct markup percentages among
active records. -/
def unique_active_markups (db : List CommissionFactor) : Prop :=
  (db.filter (fun e => e.active)).Pairwise
    (fun a b => a.markup_percentage ≠ b.markup_percentage)

/-- Claim C9's failing database: an active and an inactive record sharing
markup percentage 20. -/
def C9db : List CommissionFactor := [⟨1, 20, 1/100, true⟩, ⟨2, 20, 1/200, false⟩]

/-- The same database after reactivating record 2. -/
def C9db2 : List CommissionFactor := [⟨1, 20, 1/100, true⟩, ⟨2, 20, 1/200, true⟩]

/-! Theorems. -/

theorem roundHalfEven_intCast (n : ℤ) : roundHalfEven (n : ℚ) = n := by
  simp [roundHalfEven]

theorem roundHalfEven_nonneg {q : ℚ} (h : 0 ≤ q) : 0 ≤ roundHalfEven q := by
  have hf : (0 : ℤ) ≤ Int.floor q := Int.floor_nonneg.mpr h
  unfold roundHalfEven
  dsimp only
  split
  · exact hf
  · split
    · omega
    · split <;> omega

theorem get_commission_factor_congr (table : List CommissionFactor) {p q : ℚ}
    (h : roundHalfEven p = roundHalfEven q) :
    get_commission_factor table p = get_commission_factor table q := by
  unfold get_commission_factor
  rw [h]

theorem markup_percentage_eval {price cost : ℚ} {n : ℤ} (hp : price ≠ 0) (hc : cost ≠ 0)
    (h : roundHalfEven ((cost / price - 1) * (-100)) = n) :
    markup_percentage_of price cost = (n : ℚ) := by
  unfold markup_percentage_of
  rw [if_pos (⟨hp, hc⟩ : price ≠ 0 ∧ cost ≠ 0), h]

/-- Claim C7: with no active entries, `get_commission_factor` returns `0.0`
for every input; an empty table is never an error that aborts the
computation (the embedded function is total by construction). -/
theorem get_commission_factor_empty_table (table : List CommissionFactor) (p : ℚ)
    (h : activeFactors table = []) : get_commission_factor table p = 0 := by
  unfold get_commission_factor
  rw [h]

theorem get_commission_factor_empty_table_witness :
    get_commission_factor [⟨1, 10, 1/100, false⟩] 47 = 0 :=
  get_commission_factor_empty_table [⟨1, 10, 1/100, false⟩] 47 (by decide)

theorem C2tbl_eval_low : get_commission_factor C2tbl (29/2) = 1/100 := by
  have h : roundHalfEven ((29:ℚ)/2) = 14 := by norm_num [roundHalfEven]
  simp [get_commission_factor, h, C2tbl, activeFactors]

theorem C2tbl_eval_high : get_commission_factor C2tbl (((15:ℤ) : ℚ)) = 1/50 := by
  have hc : ((15:ℤ) : ℚ) = (15:ℚ) := by norm_num
  rw [hc]
  have h : roundHalfEven (15:ℚ) = 15 := by norm_num [roundHalfEven]
  simp [get_commission_factor, h, C2tbl, activeFactors]

/-- Claim C2, counterexample: the lookup does not round half away from zero.
At `p = 14.5` the code's Python-3 `round` gives the even neighbour 14, while
half-away-from-zero gives 15, and the two buckets carry different factors. -/
theorem get_commission_factor_not_half_away_from_zero :
    get_commission_factor C2tbl (29/2) ≠
      get_commission_factor C2tbl ((roundHalfAwayFromZero (29/2) : ℤ) : ℚ) := by
  have h2 : roundHalfAwayFromZero ((29:ℚ)/2) = 15 := by
    norm_num [roundHalfAwayFromZero]
  rw [h2, C2tbl_eval_low, C2tbl_eval_high]
  norm_num

/-- Claim C2 (amended): the input is rounded with Python 3's round-half-to-even
before any table comparison, so `resolve(p) = resolve(roundHalfEven(p))` for
every table and input, and in particular `resolve(14.4) = resolve(14)` and
`resolve(14.6) = resolve(15)`; ties such as 14.5 go to the even neighbour,
not away from zero. -/
theorem get_commission_factor_rounds_half_to_even (table : List CommissionFactor) (p : ℚ) :
    get_commission_factor table p =
      get_commission_factor table ((roundHalfEven p : ℤ) : ℚ)
    ∧ get_commission_factor table (72/5) = get_commission_factor table 14
    ∧ get_commission_factor table (73/5) = get_commission_factor table 15 := by
  refine ⟨?_, ?_, ?_⟩
  · exact get_commission_factor_congr table (roundHalfEven_intCast (roundHalfEven p)).symm
  · exact get_commission_factor_congr table (by norm_num [roundHalfEven])
  · exact get_commission_factor_congr table (by norm_num [roundHalfEven])

/-- Claim C4: a zero price or an absent/zero cost forces all four derived line
fields to `0.0`; and a derived markup percentage of `0` forces
`commission_factor = 0.0` without consulting the table, even when an active
entry with `markup_percentage = 0` exists (direct lookup at 0 would return
its factor). -/
theorem line_zero_policy (table : List CommissionFactor) (price cost qty : ℚ)
    (h : price = 0 ∨ cost = 0) :
    compute_line table price cost qty = (0, 0, 0, 0)
    ∧ (∀ t2 : List CommissionFactor, commission_factor_of t2 0 = 0)
    ∧ commission_factor_of [⟨1, 0, 1/200, true⟩] 0 = 0
    ∧ get_commission_factor [⟨1, 0, 1/200, true⟩] 0 = 1/200 := by
  have hz : ∀ t2 : List CommissionFactor, commission_factor_of t2 0 = 0 := by
    intro t2
    simp [commission_factor_of]
  refine ⟨?_, hz, hz _, ?_⟩
  · have hmp : markup_percentage_of price cost = 0 := by
      rcases h with h | h <;> simp [markup_percentage_of, h]
    have hma : markup_amount_of price cost = 0 := by
      rcases h with h | h <;> simp [markup_amount_of, h]
    simp [compute_line, hmp, hma, hz, commission_amount_of]
  · have h0 : roundHalfEven (0:ℚ) = 0 := by norm_num [roundHalfEven]
    simp [get_commission_factor, h0, activeFactors]

theorem line_zero_policy_witness :
    compute_line [] 0 5 1 = (0, 0, 0, 0) :=
  (line_zero_policy [] 0 5 1 (Or.inl rfl)).1

theorem C3tbl_eval_20 : commission_factor_of C3tbl 20 = 1/100 := by
  have h20 : roundHalfEven (20:ℚ) = 20 := by norm_num [roundHalfEven]
  have hg : get_commission_factor C3tbl 20 = 1/100 := by
    simp [get_commission_factor, h20, C3tbl, activeFactors]
  norm_num [commission_factor_of, hg]

theorem compute_line_example : compute_line C3tbl 100 80 2 = (20, 20, 1/100, 2) := by
  have hmp : markup_percentage_of 100 80 = ((20:ℤ) : ℚ) :=
    markup_percentage_eval (by norm_num) (by norm_num) (by norm_num [roundHalfEven])
  have hmp2 : markup_percentage_of 100 80 = 20 := by rw [hmp]; norm_num
  have hma : markup_amount_of 100 80 = 20 := by norm_num [markup_amount_of]
  have hca : commission_amount_of ((100:ℚ) * 2) (1/100) = 2 := by
    norm_num [commission_amount_of]
  show (markup_percentage_of 100 80, markup_amount_of 100 80,
      commission_factor_of C3tbl (markup_percentage_of 100 80),
      commission_amount_of ((100:ℚ) * 2)
        (commission_factor_of C3tbl (markup_percentage_of 100 80))) =
    ((20:ℚ), (20:ℚ), (1/100:ℚ), (2:ℚ))
  rw [hmp2, C3tbl_eval_20, hma, hca]

/-- Claim C3, counterexample: a cost strictly below a non-zero price need not
give a strictly positive markup percentage.  At `unit_price = 100`,
`unit_cost = 99.6` the unrounded markup is `0.4` and the stored rounded
percentage is `0`, which is not positive. -/
theorem markup_below_price_not_positive :
    (498:ℚ)/5 ≠ 0 ∧ (0:ℚ) < 498/5 ∧ (498:ℚ)/5 < 100 ∧ (100:ℚ) ≠ 0
    ∧ ¬ (0 < markup_percentage_of 100 (498/5)) := by
  have hmp : markup_percentage_of 100 (498/5) = ((0:ℤ) : ℚ) :=
    markup_percentage_eval (by norm_num) (by norm_num) (by norm_num [roundHalfEven])
  refine ⟨by norm_num, by norm_num, by norm_num, by norm_num, ?_⟩
  rw [hmp]
  norm_num

/-- Claim C3 (amended): for a line with non-zero `unit_price` and non-zero
`unit_cost`, `markup_percentage = round(((unit_cost / unit_price) - 1) * -100)`
(a cost below the price gives a non-negative percentage: "positive" fails
when the quotient rounds to 0), `markup_amount = unit_price - unit_cost`, and
`commission_amount = line_subtotal * commission_factor` when both operands
are non-zero (else `0.0`); `compute_line(100, 80, 2)` against the single
active entry `{20: 0.010}` gives `(20, 20.0, 0.010, 2.0)`, and
`compute_line(100, 83.33, 1)` gives `markup_percentage = 17`. -/
theorem compute_line_formula_spec (price cost : ℚ) (hp : price ≠ 0) (hc : cost ≠ 0) :
    markup_percentage_of price cost =
      ((roundHalfEven ((cost / price - 1) * (-100)) : ℤ) : ℚ)
    ∧ markup_amount_of price cost = price - cost
    ∧ (0 < cost → cost < price → 0 ≤ markup_percentage_of price cost)
    ∧ (∀ s f : ℚ, (s ≠ 0 → f ≠ 0 → commission_amount_of s f = s * f)
        ∧ ((s = 0 ∨ f = 0) → commission_amount_of s f = 0))
    ∧ compute_line C3tbl 100 80 2 = (20, 20, 1/100, 2)
    ∧ markup_percentage_of 100 (8333/100) = 17 := by
  have hform : markup_percentage_of price cost =
      ((roundHalfEven ((cost / price - 1) * (-100)) : ℤ) : ℚ) := by
    unfold markup_percentage_of
    rw [if_pos (⟨hp, hc⟩ : price ≠ 0 ∧ cost ≠ 0)]
  refine ⟨hform, ?_, ?_, ?_, compute_line_example, ?_⟩
  · simp [markup_amount_of, hp, hc]
  · intro h1 h2
    have hp0 : 0 < price := h1.trans h2
    have hlt : cost / price < 1 := (div_lt_one hp0).mpr h2
    have harg : 0 ≤ (cost / price - 1) * (-100) := by nlinarith
    rw [hform]
    exact_mod_cast roundHalfEven_nonneg harg
  · intro s f
    constructor
    · intro hs hf
      simp [commission_amount_of, hs, hf]
    · intro h
      rcases h with h | h <;> simp [commission_amount_of, h]
  · have h17 : markup_percentage_of 100 (8333/100) = ((17:ℤ) : ℚ) :=
      markup_percentage_eval (by norm_num) (by norm_num) (by norm_num [roundHalfEven])
    rw [h17]
    norm_num

theorem compute_line_formula_spec_witness :
    markup_amount_of 100 80 = 100 - 80 :=
  (compute_line_formula_spec 100 80 (by norm_num) (by norm_num)).2.1

/-- Claim C5, counterexample: with the single qualifying line
(subtotal 100, factor 0.010) and `amount_untaxed = 0` (reachable when an
offsetting negative-subtotal line carries factor 0), the claim's formula
gives the weighted average 0.010, but the code returns 0.0 because it first
requires a truthy `amount_untaxed`. -/
theorem total_commission_factor_counterexample :
    claimWeightedFactor C5gap = 1/100
    ∧ total_commission_factor C5gap 0 = 0
    ∧ total_commission_factor C5gap 0 ≠ claimWeightedFactor C5gap := by
  have h1 : claimWeightedFactor C5gap = 1/100 := by
    norm_num [claimWeightedFactor, C5gap, List.filter_cons]
  have h2 : total_commission_factor C5gap 0 = 0 := by
    simp [total_commission_factor]
  refine ⟨h1, h2, ?_⟩
  rw [h1, h2]
  norm_num

/-- Claim C5 (amended): `total_commission_factor` equals the
subtotal-weighted average over qualifying lines (both `line_subtotal` and
`commission_factor` non-zero) whenever `amount_untaxed` is non-zero, the
order has at least one line, and the qualifying denominator is strictly
positive; it is `0.0` when `amount_untaxed` is zero, the order has no lines,
or the qualifying denominator is zero or negative (the claim omitted the
`amount_untaxed` guard and the strictness of the denominator test).
`total_commission_amount = amount_untaxed * factor`, `0.0` if either operand
is zero.  Lines (200, 0.010) and (100, 0.004) with `amount_untaxed = 300`
give factor `0.008` and amount `2.4`. -/
theorem total_commission_factor_spec (lines : List OrderLine) (amount_untaxed : ℚ) :
    (amount_untaxed ≠ 0 → lines ≠ [] → 0 < total_subtotal lines →
      total_commission_factor lines amount_untaxed =
        total_weighted_factor lines / total_subtotal lines)
    ∧ ((amount_untaxed = 0 ∨ lines = [] ∨ total_subtotal lines ≤ 0) →
      total_commission_factor lines amount_untaxed = 0)
    ∧ (∀ f : ℚ, amount_untaxed ≠ 0 → f ≠ 0 →
      total_commission_amount amount_untaxed f = amount_untaxed * f)
    ∧ (∀ f : ℚ, amount_untaxed = 0 ∨ f = 0 →
      total_commission_amount amount_untaxed f = 0)
    ∧ total_commission_factor C5lines 300 = 1/125
    ∧ total_commission_amount 300 (1/125) = 12/5 := by
  refine ⟨?_, ?_, ?_, ?_, ?_, ?_⟩
  · intro h1 h2 h3
    simp [total_commission_factor, h1, h2, h3]
  · intro h
    rcases h with h | h | h
    · simp [total_commission_factor, h]
    · simp [total_commission_factor, h]
    · have hn : ¬ (0 < total_subtotal lines) := not_lt.mpr h
      simp [total_commission_factor, hn]
  · intro f h1 h2
    simp [total_commission_amount, h1, h2]
  · intro f h
    rcases h with h | h <;> simp [total_commission_amount, h]
  · have hts : total_subtotal C5lines = 300 := by
      norm_num [total_subtotal, C5lines]
    have htw : total_weighted_factor C5lines = 12/5 := by
      norm_num [total_weighted_factor, C5lines]
    have hne : C5lines ≠ [] := by simp [C5lines]
    unfold total_commission_factor
    rw [if_pos (⟨(by norm_num : (300:ℚ) ≠ 0), hne⟩ : (300:ℚ) ≠ 0 ∧ C5lines ≠ []),
      if_pos (by rw [hts]; norm_num : (0:ℚ) < total_subtotal C5lines), htw, hts]
    norm_num
  · norm_num [total_commission_amount]

theorem total_commission_factor_spec_witness :
    total_commission_factor C5lines 300 =
      total_weighted_factor C5lines / total_subtotal C5lines :=
  (total_commission_factor_spec C5lines 300).1 (by norm_num) (by simp [C5lines])
    (by norm_num [total_subtotal, C5lines])

/-- Claim C6: `total_cost` sums `unit_cost * quantity` over exactly the lines
where both are non-zero (other lines contribute 0), `total_markup_amount =
amount_untaxed - total_cost` unconditionally, and `total_markup_percentage`
applies the rounded markup formula to `(total_cost, amount_untaxed)` with
`0.0` when either is zero; lines 200/160, 150/120, 150/135 with
`amount_untaxed = 500` give `total_cost = 415`, `total_markup_amount = 85`,
`total_markup_percentage = 17`. -/
theorem order_cost_markup_aggregates (l : OrderLine) (ls : List OrderLine)
    (amount_untaxed tc : ℚ) :
    total_cost_amount [] = 0
    ∧ total_cost_amount (l :: ls) =
        (if l.purchase_price ≠ 0 ∧ l.product_uom_qty ≠ 0 then
          l.purchase_price * l.product_uom_qty else 0) + total_cost_amount ls
    ∧ total_markup_amount amount_untaxed tc = amount_untaxed - tc
    ∧ (amount_untaxed ≠ 0 → tc ≠ 0 → total_markup_percentage tc amount_untaxed =
        ((roundHalfEven ((tc / amount_untaxed - 1) * (-100)) : ℤ) : ℚ))
    ∧ ((amount_untaxed = 0 ∨ tc = 0) → total_markup_percentage tc amount_untaxed = 0)
    ∧ total_cost_amount C6lines = 415
    ∧ total_markup_amount 500 415 = 85
    ∧ total_markup_percentage 415 500 = 17 := by
  refine ⟨rfl, ?_, rfl, ?_, ?_, ?_, ?_, ?_⟩
  · simp [total_cost_amount]
  · intro h1 h2
    unfold total_markup_percentage
    rw [if_pos (⟨h1, h2⟩ : amount_untaxed ≠ 0 ∧ tc ≠ 0)]
  · intro h
    rcases h with h | h <;> simp [total_markup_percentage, h]
  · norm_num [total_cost_amount, C6lines]
  · norm_num [total_markup_amount]
  · have h : roundHalfEven (((415:ℚ) / 500 - 1) * (-100)) = 17 := by
      norm_num [roundHalfEven]
    unfold total_markup_percentage
    rw [if_pos (⟨(by norm_num), (by norm_num)⟩ : (500:ℚ) ≠ 0 ∧ (415:ℚ) ≠ 0), h]
    norm_num

theorem order_cost_markup_aggregates_witness :
    total_markup_percentage 415 500 =
      ((roundHalfEven (((415:ℚ) / 500 - 1) * (-100)) : ℤ) : ℚ) :=
  (order_cost_markup_aggregates ⟨0, 0, 0, 0, 0⟩ [] 500 415).2.2.2.1
    (by norm_num) (by norm_num)

theorem can_edit_iff (s : OrderState) :
    can_edit_product_vendor s = true ↔
      (s = OrderState.draft ∨ s = OrderState.sent) := by
  cases s <;> simp [can_edit_product_vendor]

theorem write_line_ok_of_can_edit {line : SOLine} {vals : SOLineVals}
    (hs : can_edit_product_vendor line.order_state = true) :
    write_line line vals = Except.ok (apply_line_vals vals line) := by
  unfold write_line
  rw [hs]
  simp

theorem write_line_error_of_blocked {line : SOLine} {vals : SOLineVals}
    (hv : vals.product_vendor_id.isSome = true)
    (hs : can_edit_product_vendor line.order_state = false) :
    write_line line vals =
      Except.error "Product vendor can only be modified in Draft or Quotation Sent states" := by
  unfold write_line
  rw [hs, hv]
  simp

/-- Claim C8: a write whose `vals` touch `product_vendor_id` succeeds exactly
when the parent order's current state is draft or sent; in any other state
it raises the validation error and no record is produced (the old line
stands, so the field is unchanged); a successful vendor write stores the new
value; and a write that does not touch the field is never blocked by the
guard and leaves the vendor field as it was. -/
theorem product_vendor_write_guard (line : SOLine) (vals : SOLineVals)
    (hv : vals.product_vendor_id.isSome = true) :
    ((∃ l2, write_line line vals = Except.ok l2) ↔
      (line.order_state = OrderState.draft ∨ line.order_state = OrderState.sent))
    ∧ (line.order_state ≠ OrderState.draft → line.order_state ≠ OrderState.sent →
      write_line line vals =
        Except.error "Product vendor can only be modified in Draft or Quotation Sent states")
    ∧ (∀ v, vals.product_vendor_id = some v → ∀ l2,
      write_line line vals = Except.ok l2 → l2.product_vendor_id = v)
    ∧ (∀ vals2 : SOLineVals, vals2.product_vendor_id = none →
      write_line line vals2 = Except.ok (apply_line_vals vals2 line)
      ∧ (apply_line_vals vals2 line).product_vendor_id = line.product_vendor_id) := by
  refine ⟨?_, ?_, ?_, ?_⟩
  · by_cases hs : can_edit_product_vendor line.order_state = true
    · exact iff_of_true ⟨_, write_line_ok_of_can_edit hs⟩ ((can_edit_iff _).mp hs)
    · have hs' : can_edit_product_vendor line.order_state = false := by
        revert hs
        cases can_edit_product_vendor line.order_state <;> simp
      refine iff_of_false ?_ (fun hor => hs ((can_edit_iff _).mpr hor))
      rintro ⟨l2, h⟩
      rw [write_line_error_of_blocked hv hs'] at h
      exact Except.noConfusion h
  · intro h1 h2
    have hs' : can_edit_product_vendor line.order_state = false := by
      simp [can_edit_product_vendor, h1, h2]
    exact write_line_error_of_blocked hv hs'
  · intro v hv2 l2 hok
    by_cases hs : can_edit_product_vendor line.order_state = true
    · rw [write_line_ok_of_can_edit hs] at hok
      have := Except.ok.inj hok
      rw [← this]
      simp [apply_line_vals, hv2]
    · have hs' : can_edit_product_vendor line.order_state = false := by
        revert hs
        cases can_edit_product_vendor line.order_state <;> simp
      rw [write_line_error_of_blocked hv hs'] at hok
      exact Except.noConfusion hok
  · intro vals2 h2
    have hcond : (vals2.product_vendor_id.isSome
        && !(can_edit_product_vendor line.order_state)) = false := by
      rw [h2]
      simp
    constructor
    · unfold write_line
      rw [hcond]
      simp
    · simp [apply_line_vals, h2]

theorem product_vendor_write_guard_witness :
    write_line ⟨none, CommissionPaymentStatus.pending, OrderState.sale⟩
        ⟨some (some 7), none⟩ =
      Except.error "Product vendor can only be modified in Draft or Quotation Sent states" :=
  (product_vendor_write_guard ⟨none, CommissionPaymentStatus.pending, OrderState.sale⟩
    ⟨some (some 7), none⟩ rfl).2.1 (by decide) (by decide)

/-- Claim C9 (code bug): the uniqueness constraint is declared only on
`markup_percentage`, so a write that touches only `active` runs no
constraint at all: reactivating record 2 while active record 1 already
holds markup 20 succeeds, leaving two active records with the same markup
percentage — the invariant the constraint's own documentation promises to
maintain is violated, where the claim (and the spec's invariant) require
the write to fail. -/
theorem reactivation_bypasses_uniqueness :
    unique_active_markups C9db
    ∧ write_factor C9db 2 ⟨none, none, some true⟩ = Except.ok C9db2
    ∧ ¬ unique_active_markups C9db2 := by
  refine ⟨?_, by rfl, ?_⟩
  · unfold unique_active_markups
    decide
  · unfold unique_active_markups
    decide

theorem minByMarkup_mem (e : CommissionFactor) (fs : List CommissionFactor) :
    minByMarkup e fs ∈ e :: fs := by
  induction fs generalizing e with
  | nil => simp [minByMarkup]
  | cons f fs ih =>
    simp only [minByMarkup]
    rcases List.mem_cons.mp
        (ih (if f.markup_percentage < e.markup_percentage then f else e)) with h1 | h1
    · rw [h1]
      by_cases hc : f.markup_percentage < e.markup_percentage
      · simp [hc]
      · simp [hc]
    · exact List.mem_cons_of_mem _ (List.mem_cons_of_mem _ h1)

theorem minByMarkup_le (e : CommissionFactor) (fs : List CommissionFactor) :
    ∀ x ∈ e :: fs, (minByMarkup e fs).markup_percentage ≤ x.markup_percentage := by
  induction fs generalizing e with
  | nil =>
    intro x hx
    rcases List.mem_cons.mp hx with h | h
    · rw [h]
      simp [minByMarkup]
    · exact absurd h (List.not_mem_nil x)
  | cons f fs ih =>
    intro x hx
    simp only [minByMarkup]
    by_cases hc : f.markup_percentage < e.markup_percentage
    · rw [if_pos hc]
      rcases List.mem_cons.mp hx with h1 | h1
      · rw [h1]
        exact le_trans (ih f f (List.mem_cons_self f fs)) (le_of_lt hc)
      · exact ih f x h1
    · rw [if_neg hc]
      rcases List.mem_cons.mp hx with h1 | h1
      · rw [h1]
        exact ih e e (List.mem_cons_self e fs)
      · rcases List.mem_cons.mp h1 with h2 | h2
        · rw [h2]
          exact le_trans (ih e e (List.mem_cons_self e fs)) (not_lt.mp hc)
        · exact ih e x (List.mem_cons.mpr (Or.inr h2))

theorem maxByMarkup_mem (e : CommissionFactor) (fs : List CommissionFactor) :
    maxByMarkup e fs ∈ e :: fs := by
  induction fs generalizing e with
  | nil => simp [maxByMarkup]
  | cons f fs ih =>
    simp only [maxByMarkup]
    rcases List.mem_cons.mp
        (ih (if e.markup_percentage ≤ f.markup_percentage then f else e)) with h1 | h1
    · rw [h1]
      by_cases hc : e.markup_percentage ≤ f.markup_percentage
      · simp [hc]
      · simp [hc]
    · exact List.mem_cons_of_mem _ (List.mem_cons_of_mem _ h1)

theorem maxByMarkup_ge (e : CommissionFactor) (fs : List CommissionFactor) :
    ∀ x ∈ e :: fs, x.markup_percentage ≤ (maxByMarkup e fs).markup_percentage := by
  induction fs generalizing e with
  | nil =>
    intro x hx
    rcases List.mem_cons.mp hx with h | h
    · rw [h]
      simp [maxByMarkup]
    · exact absurd h (List.not_mem_nil x)
  | cons f fs ih =>
    intro x hx
    simp only [maxByMarkup]
    by_cases hc : e.markup_percentage ≤ f.markup_percentage
    · rw [if_pos hc]
      rcases List.mem_cons.mp hx with h1 | h1
      · rw [h1]
        exact le_trans hc (ih f f (List.mem_cons_self f fs))
      · exact ih f x h1
    · rw [if_neg hc]
      rcases List.mem_cons.mp hx with h1 | h1
      · rw [h1]
        exact ih e e (List.mem_cons_self e fs)
      · rcases List.mem_cons.mp h1 with h2 | h2
        · rw [h2]
          exact le_trans (le_of_lt (not_le.mp hc)) (ih e e (List.mem_cons_self e fs))
        · exact ih e x (List.mem_cons.mpr (Or.inr h2))

theorem pairwise_markup_inj {l : List CommissionFactor}
    (h : l.Pairwise (fun a b => a.markup_percentage ≠ b.markup_percentage))
    {e x : CommissionFactor} (he : e ∈ l) (hx : x ∈ l)
    (hm : e.markup_percentage = x.markup_percentage) : e = x := by
  induction l with
  | nil => exact absurd he (List.not_mem_nil e)
  | cons a as ih =>
    rcases List.pairwise_cons.mp h with ⟨ha, htail⟩
    rcases List.mem_cons.mp he with rfl | h1
    · rcases List.mem_cons.mp hx with rfl | h2
      · rfl
      · exact absurd hm (ha x h2)
    · rcases List.mem_cons.mp hx with rfl | h2
      · exact absurd hm.symm (ha e h1)
      · exact ih htail h1 h2

theorem get_commission_factor_cons (table : List CommissionFactor) (p : ℚ)
    {f : CommissionFactor} {fs : List CommissionFactor}
    (hA : activeFactors table = f :: fs) :
    get_commission_factor table p =
      (match (f :: fs).find? (fun e => e.markup_percentage == roundHalfEven p) with
       | some e => e.commission_factor
       | none =>
         if roundHalfEven p < (minByMarkup f fs).markup_percentage then
           (minByMarkup f fs).commission_factor
         else if (maxByMarkup f fs).markup_percentage < roundHalfEven p then
           (maxByMarkup f fs).commission_factor
         else 0) := by
  unfold get_commission_factor
  rw [hA]

theorem get_commission_factor_exact (table : List CommissionFactor) (p : ℚ)
    (huniq : (activeFactors table).Pairwise
      (fun a b => a.markup_percentage ≠ b.markup_percentage))
    {e : CommissionFactor} (he : e ∈ activeFactors table)
    (hemp : e.markup_percentage = roundHalfEven p) :
    get_commission_factor table p = e.commission_factor := by
  rcases hA : activeFactors table with _ | ⟨f, fs⟩
  · rw [hA] at he
    exact absurd he (List.not_mem_nil e)
  · have he' : e ∈ f :: fs := hA ▸ he
    rw [get_commission_factor_cons table p hA]
    cases hfind : (f :: fs).find? (fun x => x.markup_percentage == roundHalfEven p) with
    | none =>
      exfalso
      exact List.find?_eq_none.mp hfind e he' (by simp [hemp])
    | some x =>
      have hx1 : x ∈ f :: fs := List.mem_of_find?_eq_some hfind
      have hx2 : x.markup_percentage = roundHalfEven p := by
        have hpx := List.find?_some hfind
        simpa using hpx
      have hex : e = x :=
        pairwise_markup_inj (hA ▸ huniq) he' hx1 (by rw [hemp, hx2])
      dsimp only
      rw [hex]

theorem get_commission_factor_below_min (table : List CommissionFactor) (p : ℚ)
    (huniq : (activeFactors table).Pairwise
      (fun a b => a.markup_percentage ≠ b.markup_percentage))
    {e : CommissionFactor} (he : e ∈ activeFactors table)
    (hmin : ∀ x ∈ activeFactors table, e.markup_percentage ≤ x.markup_percentage)
    (hlt : roundHalfEven p < e.markup_percentage) :
    get_commission_factor table p = e.commission_factor := by
  rcases hA : activeFactors table with _ | ⟨f, fs⟩
  · rw [hA] at he
    exact absurd he (List.not_mem_nil e)
  · have he' : e ∈ f :: fs := hA ▸ he
    rw [hA] at hmin
    have hfind : (f :: fs).find? (fun x => x.markup_percentage == roundHalfEven p) = none := by
      apply List.find?_eq_none.mpr
      intro x hx hbeq
      exact absurd (eq_of_beq hbeq) (lt_of_lt_of_le hlt (hmin x hx)).ne'
    have hminmem : minByMarkup f fs ∈ f :: fs := minByMarkup_mem f fs
    have heq : minByMarkup f fs = e :=
      pairwise_markup_inj (hA ▸ huniq) hminmem he'
        (le_antisymm (minByMarkup_le f fs e he') (hmin _ hminmem))
    have hlt' : roundHalfEven p < (minByMarkup f fs).markup_percentage := by
      rw [heq]
      exact hlt
    rw [get_commission_factor_cons table p hA, hfind]
    dsimp only
    rw [if_pos hlt', heq]

theorem get_commission_factor_above_max (table : List CommissionFactor) (p : ℚ)
    (huniq : (activeFactors table).Pairwise
      (fun a b => a.markup_percentage ≠ b.markup_percentage))
    {e : CommissionFactor} (he : e ∈ activeFactors table)
    (hmax : ∀ x ∈ activeFactors table, x.markup_percentage ≤ e.markup_percentage)
    (hlt : e.markup_percentage < roundHalfEven p) :
    get_commission_factor table p = e.commission_factor := by
  rcases hA : activeFactors table with _ | ⟨f, fs⟩
  · rw [hA] at he
    exact absurd he (List.not_mem_nil e)
  · have he' : e ∈ f :: fs := hA ▸ he
    rw [hA] at hmax
    have hfind : (f :: fs).find? (fun x => x.markup_percentage == roundHalfEven p) = none := by
      apply List.find?_eq_none.mpr
      intro x hx hbeq
      exact absurd (eq_of_beq hbeq) (lt_of_le_of_lt (hmax x hx) hlt).ne
    have hminmem : minByMarkup f fs ∈ f :: fs := minByMarkup_mem f fs
    have hnot : ¬ (roundHalfEven p < (minByMarkup f fs).markup_percentage) :=
      not_lt.mpr (le_trans (hmax _ hminmem) (le_of_lt hlt))
    have hmaxmem : maxByMarkup f fs ∈ f :: fs := maxByMarkup_mem f fs
    have heq : maxByMarkup f fs = e :=
      pairwise_markup_inj (hA ▸ huniq) hmaxmem he'
        (le_antisymm (hmax _ hmaxmem) (maxByMarkup_ge f fs e he'))
    have hlt' : (maxByMarkup f fs).markup_percentage < roundHalfEven p := by
      rw [heq]
      exact hlt
    rw [get_commission_factor_cons table p hA, hfind]
    dsimp only
    rw [if_neg hnot, if_pos hlt', heq]

theorem get_commission_factor_gap (table : List CommissionFactor) (p : ℚ)
    (hno : ∀ x ∈ activeFactors table, x.markup_percentage ≠ roundHalfEven p)
    (hlow : ∃ x ∈ activeFactors table, x.markup_percentage < roundHalfEven p)
    (hhigh : ∃ x ∈ activeFactors table, roundHalfEven p < x.markup_percentage) :
    get_commission_factor table p = 0 := by
  obtain ⟨e1, he1, hlt1⟩ := hlow
  obtain ⟨e2, he2, hlt2⟩ := hhigh
  rcases hA : activeFactors table with _ | ⟨f, fs⟩
  · rw [hA] at he1
    exact absurd he1 (List.not_mem_nil e1)
  · rw [hA] at hno he1 he2
    have hfind : (f :: fs).find? (fun x => x.markup_percentage == roundHalfEven p) = none := by
      apply List.find?_eq_none.mpr
      intro x hx hbeq
      exact absurd (eq_of_beq hbeq) (hno x hx)
    have h1 : ¬ (roundHalfEven p < (minByMarkup f fs).markup_percentage) :=
      not_lt.mpr (le_trans (minByMarkup_le f fs e1 he1) (le_of_lt hlt1))
    have h2 : ¬ ((maxByMarkup f fs).markup_percentage < roundHalfEven p) :=
      not_lt.mpr (le_trans (le_of_lt hlt2) (maxByMarkup_ge f fs e2 he2))
    rw [get_commission_factor_cons table p hA, hfind]
    dsimp only
    rw [if_neg h1, if_neg h2]

/-- Claim C1: for every non-empty active record set satisfying the
uniqueness invariant and every input `p`: an exact match on the rounded
input returns that entry's factor; a rounded input below the minimum
configured percentage returns the minimum entry's factor; above the maximum
returns the maximum entry's factor; and a rounded input strictly inside the
configured range with no exact match returns `0.0` (gap-fill to zero, not
interpolation). -/
theorem resolve_cases (table : List CommissionFactor) (p : ℚ)
    (hne : activeFactors table ≠ [])
    (huniq : (activeFactors table).Pairwise
      (fun a b => a.markup_percentage ≠ b.markup_percentage)) :
    (∀ e ∈ activeFactors table, e.markup_percentage = roundHalfEven p →
      get_commission_factor table p = e.commission_factor)
    ∧ (∀ e ∈ activeFactors table,
      (∀ x ∈ activeFactors table, e.markup_percentage ≤ x.markup_percentage) →
      roundHalfEven p < e.markup_percentage →
      get_commission_factor table p = e.commission_factor)
    ∧ (∀ e ∈ activeFactors table,
      (∀ x ∈ activeFactors table, x.markup_percentage ≤ e.markup_percentage) →
      e.markup_percentage < roundHalfEven p →
      get_commission_factor table p = e.commission_factor)
    ∧ ((∀ x ∈ activeFactors table, x.markup_percentage ≠ roundHalfEven p) →
      (∃ x ∈ activeFactors table, x.markup_percentage < roundHalfEven p) →
      (∃ x ∈ activeFactors table, roundHalfEven p < x.markup_percentage) →
      get_commission_factor table p = 0) := by
  refine ⟨?_, ?_, ?_, ?_⟩
  · intro e he hemp
    exact get_commission_factor_exact table p huniq he hemp
  · intro e he hmin hlt
    exact get_commission_factor_below_min table p huniq he hmin hlt
  · intro e he hmax hlt
    exact get_commission_factor_above_max table p huniq he hmax hlt
  · intro hno hlow hhigh
    exact get_commission_factor_gap table p hno hlow hhigh

theorem resolve_cases_witness : get_commission_factor C2tbl 10 = 1/100 := by
  have hmem : (⟨1, 14, 1/100, true⟩ : CommissionFactor) ∈ activeFactors C2tbl :=
    List.mem_cons_self _ _
  have hmin : ∀ x ∈ activeFactors C2tbl,
      (⟨1, 14, 1/100, true⟩ : CommissionFactor).markup_percentage ≤
        x.markup_percentage := by decide
  have hlt : roundHalfEven (10:ℚ) <
      (⟨1, 14, 1/100, true⟩ : CommissionFactor).markup_percentage := by
    have h10 : roundHalfEven (10:ℚ) = 10 := by norm_num [roundHalfEven]
    rw [h10]
    decide
  exact (resolve_cases C2tbl 10 (by decide) (by decide)).2.1
    ⟨1, 14, 1/100, true⟩ hmem hmin hlt

/-- Claim C10: a loss-making line (non-zero price and cost, cost above the
price) whose stored markup percentage is a non-zero negative integer still
performs the table lookup, and against a non-empty active table whose
entries carry the model's non-negative markups it receives the factor of
the entry with the smallest markup percentage rather than zero. -/
theorem negative_markup_minimum_factor (table : List CommissionFactor)
    (price cost : ℚ) (hp : price ≠ 0) (hc : cost ≠ 0) (hcp : price < cost)
    (hneg : markup_percentage_of price cost < 0)
    (huniq : (activeFactors table).Pairwise
      (fun a b => a.markup_percentage ≠ b.markup_percentage))
    (hposi : ∀ x ∈ activeFactors table, 0 ≤ x.markup_percentage)
    (e : CommissionFactor) (he : e ∈ activeFactors table)
    (hmin : ∀ x ∈ activeFactors table, e.markup_percentage ≤ x.markup_percentage) :
    commission_factor_of table (markup_percentage_of price cost) =
      e.commission_factor := by
  have hform : markup_percentage_of price cost =
      ((roundHalfEven ((cost / price - 1) * (-100)) : ℤ) : ℚ) := by
    unfold markup_percentage_of
    rw [if_pos (⟨hp, hc⟩ : price ≠ 0 ∧ cost ≠ 0)]
  have hnz : markup_percentage_of price cost ≠ 0 := ne_of_lt hneg
  have hnneg : roundHalfEven ((cost / price - 1) * (-100)) < 0 := by
    have h := hneg
    rw [hform] at h
    exact_mod_cast h
  unfold commission_factor_of
  rw [if_pos hnz, hform]
  apply get_commission_factor_below_min table _ huniq he hmin
  rw [roundHalfEven_intCast]
  exact lt_of_lt_of_le hnneg (hposi e he)

theorem negative_markup_minimum_factor_witness :
    commission_factor_of C2tbl (markup_percentage_of 100 150) = 1/100 := by
  have hround : roundHalfEven (((150:ℚ) / 100 - 1) * (-100)) = -50 := by
    norm_num [roundHalfEven]
  have hneg : markup_percentage_of 100 150 < 0 := by
    rw [@markup_percentage_eval 100 150 (-50) (by norm_num) (by norm_num) hround]
    norm_num
  have hmem : (⟨1, 14, 1/100, true⟩ : CommissionFactor) ∈ activeFactors C2tbl :=
    List.mem_cons_self _ _
  exact negative_markup_minimum_factor C2tbl 100 150 (by norm_num) (by norm_num)
    (by norm_num) hneg (by decide) (by decide) ⟨1, 14, 1/100, true⟩ hmem (by decide)
